import Mathlib

/-!
Shallow embedding of the rerl virtual machine (src/vm.rs, src/data.rs,
src/program.rs).

Value stacks are represented as Lean lists with the HEAD of the list being
the TOP of the stack (the reverse of the Rust `Vec`, whose last element is
the top).  Consequently:
  * `push v` is `v :: stack`;
  * the element at depth `i` from the top (Rust index `len - i - 1`) is
    list index `i`;
  * the Rust `Vec::append` in the `Return` arm, which puts the callee
    stack `R` on top of the caller stack `C` (vector order `C ++ R`),
    becomes `R ++ C` on head-top lists.

Machine integers: the Rust code stores `i64` values and combines them with
unchecked two's-complement `+` and `*`; this is embedded as `Int` together
with an explicit reduction `wrap64` modulo `2 ^ 64` into the signed range.
`debug_assert!` precondition violations and `panic!`/`unwrap` failures are
both embedded as the `fatal` outcome.
-/

namespace Rerl

/-- Data that can be handled by this VM (src/data.rs, enum `Value`).
Rust derives `PartialEq`, which is structural per-variant equality with
cross-variant comparisons false; `DecidableEq` of this inductive has
exactly that behaviour. -/
inductive Value where
  | Str (s : String)
  | Int (i : Int)
  | Pid (p : Nat)
  deriving DecidableEq, Repr

/-- Whether two values carry the same variant tag. -/
def Value.sameVariant : Value → Value → Bool
  | .Str _, .Str _ => true
  | .Int _, .Int _ => true
  | .Pid _, .Pid _ => true
  | _, _ => false

/-- Whether a value is an integer. -/
def Value.isInt : Value → Bool
  | .Int _ => true
  | _ => false

/-- A message (src/data.rs, struct `Message`): a name and a value payload. -/
structure Message where
  name : String
  value : Value
  deriving DecidableEq, Repr

/-- A program instruction (src/program.rs, enum `Instruction`). -/
inductive Instruction where
  | Print
  | PushLiteral (v : Value)
  | Dup (i : Nat)
  | Pop
  | Swap (i : Nat)
  | Jump (d : Nat)
  | JumpIfEqual (d : Nat) (c : Value)
  | Call (name : String)
  | Return
  | Add
  | Mul
  | Spawn (name : String)
  | Receive
  | Send (name : String)
  deriving DecidableEq, Repr

/-- A function (src/program.rs, `Function`/`FunctionInner`): argument
count, stack capacity and instruction sequence. -/
structure Function where
  arg_count : Nat
  stack_size : Nat
  instructions : List Instruction
  deriving DecidableEq, Repr

/-- A module maps function names to functions (src/program.rs, `Module`,
backed by a `HashMap<String, Function>`).  The hash map is embedded as an
association list with at most one entry per key. -/
structure Module where
  functions : List (String × Function)
  deriving DecidableEq, Repr

/-- Embedding of `HashMap::get`: first (and only) binding of the key. -/
def lookupFn : List (String × Function) → String → Option Function
  | [], _ => none
  | (k, f) :: rest, n => if k = n then some f else lookupFn rest n

/-- Embedding of `HashMap::insert`: replace the binding if the key is
present, otherwise append a new binding. -/
def insertFn : List (String × Function) → String → Function → List (String × Function)
  | [], n, f => [(n, f)]
  | (k, g) :: rest, n, f =>
    if k = n then (n, f) :: rest else (k, g) :: insertFn rest n f

/-- `Module::get_function` (src/program.rs lines 106-108): exact-match
lookup. -/
def Module.get_function (m : Module) (n : String) : Option Function :=
  lookupFn m.functions n

/-- `Module::add_function` (src/program.rs lines 102-104): insert,
overwriting any earlier function of the same name. -/
def Module.add_function (m : Module) (n : String) (f : Function) : Module :=
  ⟨insertFn m.functions n f⟩

/-- A suspended caller frame (src/vm.rs, `struct Frame` inside
`run_process`): the function, the saved program counter (already pointing
after the `Call`), and the caller's remaining stack. -/
structure Frame where
  function : Function
  next_instr : Nat
  stack : List Value
  deriving DecidableEq, Repr

/-- The local state of one process in `run_process`: the hot locals
`function`, `next_instr`, `stack` plus the `frame_stack` of suspended
frames (head = innermost caller) and the process's pid. -/
structure ProcState where
  pid : Nat
  function : Function
  next_instr : Nat
  stack : List Value
  frame_stack : List Frame
  deriving DecidableEq, Repr

/-- Environment inputs consumed by one step: the message delivered by
`receiver.recv()` at a `Receive`, the pid returned by `spawn_process` at a
`Spawn`, and whether the `channels` registry holds the destination pid of
a `Send`. -/
structure Oracle where
  recv : Message
  spawnPid : Nat
  pidKnown : Bool
  deriving DecidableEq, Repr

/-- Observable side effects of one step, in program order. -/
inductive Eff where
  | print (v : Value)
  | spawned (name : String) (args : List Value) (pid : Nat)
  | sent (p : Nat) (name : String) (v : Value)
  | unregister (p : Nat)
  | notifyExited
  deriving DecidableEq, Repr

/-- Outcome of one step of `run_process`: continue in a new state, the
process exits (top-level `Return`), or a fatal hosted-program error
(a `debug_assert!`, `unwrap()` or `panic!`). -/
inductive StepRes where
  | ok (s : ProcState) (effs : List Eff)
  | exited (effs : List Eff)
  | fatal
  deriving DecidableEq, Repr

/-- Two's-complement reduction of an integer into the signed 64-bit range,
the semantics of unchecked `i64` `+` and `*` in the reference. -/
def wrap64 (x : Int) : Int :=
  (x + 9223372036854775808) % 18446744073709551616 - 9223372036854775808

/-- The `Dup(i)` stack operation (src/vm.rs lines 122-125):
`stack.push(stack[stack.len() - i - 1].clone())`.  Vector index
`len - i - 1` is depth `i` from the top, i.e. list index `i`; `none`
models an out-of-bounds index panic. -/
def dupExec (i : Nat) (s : List Value) : Option (List Value) :=
  (s.get? i).map (fun v => v :: s)

/-- The `Swap(i)` stack operation for `i ≠ 0` (src/vm.rs lines 115-120):
pop the top `t`, push a clone of the element at original vector index
`l - i - 1` (list index `i - 1` of the remainder), then overwrite that
slot with `t`.  For `i = 0` the code does nothing.  `none` models an
out-of-bounds index panic. -/
def swapExec (i : Nat) (s : List Value) : Option (List Value) :=
  if i = 0 then some s
  else
    match s with
    | [] => none
    | t :: rest => (rest.get? (i - 1)).map (fun w => w :: rest.set (i - 1) t)

/-- One iteration of the interpreter loop of `run_process`
(src/vm.rs lines 95-239): fetch `instructions[next_instr]`, increment the
program counter, dispatch on the instruction. -/
def step (m : Module) (o : Oracle) (s : ProcState) : StepRes :=
  match s.function.instructions.get? s.next_instr with
  | none => .fatal
  | some instr =>
    let pc := s.next_instr + 1
    match instr with
    | .Print =>
      match s.stack with
      | [] => .fatal
      | v :: rest => .ok { s with next_instr := pc, stack := rest } [.print v]
    | .PushLiteral v =>
      if s.stack.length < s.function.stack_size then
        .ok { s with next_instr := pc, stack := v :: s.stack } []
      else .fatal
    | .Pop =>
      match s.stack with
      | [] => .fatal
      | _ :: rest => .ok { s with next_instr := pc, stack := rest } []
    | .Swap i =>
      if i < s.stack.length then
        match swapExec i s.stack with
        | some st => .ok { s with next_instr := pc, stack := st } []
        | none => .fatal
      else .fatal
    | .Dup i =>
      if i < s.stack.length then
        match dupExec i s.stack with
        | some st => .ok { s with next_instr := pc, stack := st } []
        | none => .fatal
      else .fatal
    | .Jump d => .ok { s with next_instr := d } []
    | .JumpIfEqual d c =>
      match s.stack with
      | [] => .fatal
      | v :: rest =>
        .ok { s with next_instr := if c = v then d else pc, stack := rest } []
    | .Call name =>
      match m.get_function name with
      | none => .fatal
      | some g =>
        if g.arg_count ≤ s.stack.length then
          .ok { s with
                function := g
                next_instr := 0
                stack := s.stack.take g.arg_count
                frame_stack :=
                  ⟨s.function, pc, s.stack.drop g.arg_count⟩ :: s.frame_stack } []
        else .fatal
    | .Return =>
      match s.frame_stack with
      | [] =>
        if s.stack = [] then .exited [.unregister s.pid, .notifyExited]
        else .fatal
      | parent :: rest =>
        .ok { s with
              function := parent.function
              next_instr := parent.next_instr
              stack := s.stack ++ parent.stack
              frame_stack := rest } []
    | .Add =>
      match s.stack with
      | .Int a :: .Int b :: rest =>
        .ok { s with next_instr := pc, stack := .Int (wrap64 (a + b)) :: rest } []
      | _ => .fatal
    | .Mul =>
      match s.stack with
      | .Int a :: .Int b :: rest =>
        .ok { s with next_instr := pc, stack := .Int (wrap64 (a * b)) :: rest } []
      | _ => .fatal
    | .Spawn name =>
      match m.get_function name with
      | none => .fatal
      | some g =>
        if g.arg_count ≤ s.stack.length then
          .ok { s with
                next_instr := pc
                stack := .Pid o.spawnPid :: s.stack.drop g.arg_count }
            [.spawned name (s.stack.take g.arg_count) o.spawnPid]
        else .fatal
    | .Receive =>
      .ok { s with
            next_instr := pc
            stack := o.recv.value :: .Str o.recv.name :: s.stack } []
    | .Send name =>
      match s.stack with
      | v :: .Pid p :: rest =>
        if o.pidKnown then
          .ok { s with next_instr := pc, stack := rest } [.sent p name v]
        else .fatal
      | _ => .fatal

/-- The supervisor state (src/vm.rs, `VMInner`): the loaded module, the
next unassigned pid, and the `channels` registry mapping a pid to the
sender endpoint of the mailbox created for it at spawn time.  A channel is
identified by the pid under which it was registered — one fresh channel is
created per spawn, inside the same critical section that allocates the
pid. -/
structure VMState where
  module : Module
  next_pid : Nat
  channels : Nat → Option Nat

/-- `VM::new` (src/vm.rs lines 29-36): counter at 0, empty registry. -/
def vmNew (m : Module) : VMState :=
  { module := m, next_pid := 0, channels := fun _ => none }

/-- `VM::spawn_process` (src/vm.rs lines 38-56): take the current counter
as the pid, increment the counter, create a mailbox and register its
sender under the new pid, and return the pid. -/
def spawn_process (st : VMState) (_fname : String) (_args : List Value) :
    Nat × VMState :=
  (st.next_pid,
   { st with
     next_pid := st.next_pid + 1
     channels := fun k => if k = st.next_pid then some st.next_pid else st.channels k })

/-- Registry update at process exit (src/vm.rs lines 167-171):
`inner.channels.remove(&pid)`. -/
def process_exit (st : VMState) (pid : Nat) : VMState :=
  { st with channels := fun k => if k = pid then none else st.channels k }

/-- The registry lookup performed by the `Send` arm
(src/vm.rs lines 229-232): `inner.channels.get(&pid)` cloned. -/
def sendTarget (st : VMState) (pid : Nat) : Option Nat :=
  st.channels pid

/-- The supervisor events that mutate `VMInner`: a spawn, or a process
exit removing its registry entry. -/
inductive VMOp where
  | spawnOp (name : String) (args : List Value)
  | exitOp (pid : Nat)
  deriving DecidableEq, Repr

/-- Apply one supervisor event. -/
def applyOp (st : VMState) : VMOp → VMState
  | .spawnOp n a => (spawn_process st n a).2
  | .exitOp p => process_exit st p

/-- Apply a sequence of supervisor events. -/
def applyOps (st : VMState) : List VMOp → VMState
  | [] => st
  | op :: ops => applyOps (applyOp st op) ops

/-- The pids handed out by the spawns of an event sequence, in order. -/
def assignedPids (st : VMState) : List VMOp → List Nat
  | [] => []
  | .spawnOp n a :: ops =>
    (spawn_process st n a).1 :: assignedPids (spawn_process st n a).2 ops
  | .exitOp p :: ops => assignedPids (process_exit st p) ops

/-- The first action of `VM::run` (src/vm.rs lines 242-244): spawn `init`
with no arguments on the freshly built VM. -/
def runStart (m : Module) : Nat × VMState :=
  spawn_process (vmNew m) "init" []

/-- Building a module from scratch: fold `add_function` over a list of
named functions starting from the empty `Module::default()`. -/
def mkModule (adds : List (String × Function)) : Module :=
  adds.foldl (fun m nf => m.add_function nf.1 nf.2) ⟨[]⟩

/-- One interpreter step between process states, for some environment. -/
def StepTo (m : Module) (a b : ProcState) : Prop :=
  ∃ o effs, step m o a = .ok b effs

/-- Execution that never touches the bottom `n` frames: every step starts
and ends with a frame stack of at least `n` frames. -/
def CalleePhase (m : Module) (n : Nat) : ProcState → ProcState → Prop :=
  Relation.ReflTransGen
    (fun a b => StepTo m a b ∧ n ≤ a.frame_stack.length ∧ n ≤ b.frame_stack.length)

/-- The last `n` entries of a frame stack (the outermost `n` frames). -/
def suffixFrames (n : Nat) (l : List Frame) : List Frame :=
  l.drop (l.length - n)

/-! Helper lemmas. -/

theorem lookup_insert_self :
    ∀ (fns : List (String × Function)) (n : String) (f : Function),
      lookupFn (insertFn fns n f) n = some f
  | [], n, f => by simp [insertFn, lookupFn]
  | (k, g) :: rest, n, f => by
    by_cases h : k = n
    · simp [insertFn, lookupFn, h]
    · simp [insertFn, lookupFn, h, lookup_insert_self rest n f]

theorem lookup_insert_ne :
    ∀ (fns : List (String × Function)) (n nq : String) (f : Function), nq ≠ n →
      lookupFn (insertFn fns n f) nq = lookupFn fns nq
  | [], n, nq, f, h => by
    have hne : ¬n = nq := fun e => h e.symm
    simp [insertFn, lookupFn, hne]
  | (k, g) :: rest, n, nq, f, h => by
    have hne : ¬n = nq := fun e => h e.symm
    by_cases hk : k = n
    · subst hk
      simp [insertFn, lookupFn, hne]
    · simp only [insertFn, if_neg hk]
      by_cases hq : k = nq
      · simp [lookupFn, hq]
      · simp [lookupFn, hq, lookup_insert_ne rest n nq f h]

theorem foldl_add_get_ne :
    ∀ (adds : List (String × Function)) (m0 : Module) (n : String),
      n ∉ adds.map Prod.fst →
      (adds.foldl (fun m nf => m.add_function nf.1 nf.2) m0).get_function n =
        m0.get_function n
  | [], m0, n, _ => rfl
  | (k, f) :: rest, m0, n, h => by
    have hk : n ≠ k := by
      intro e
      exact h (by simp [e])
    have hrest : n ∉ rest.map Prod.fst := by
      intro e
      exact h (by simp [e])
    calc (((k, f) :: rest).foldl (fun m nf => m.add_function nf.1 nf.2) m0).get_function n
        = (m0.add_function k f).get_function n := foldl_add_get_ne rest _ n hrest
      _ = m0.get_function n := lookup_insert_ne m0.functions k n f hk

/-! Claim theorems. -/

/-- C8: `get_function name` after `add_function name f` returns `f`, even
when an earlier function was added under the same name (later inserts
overwrite earlier ones); lookups of other names are unaffected; and
`get_function` of a name never added to a module built from scratch
returns `none` (exact-match lookup only). -/
theorem C8_module_add_get (m : Module) (n nq : String) (f : Function)
    (adds : List (String × Function)) :
    (m.add_function n f).get_function n = some f ∧
    (nq ≠ n → (m.add_function n f).get_function nq = m.get_function nq) ∧
    (n ∉ adds.map Prod.fst → (mkModule adds).get_function n = none) :=
  ⟨lookup_insert_self m.functions n f,
   fun h => lookup_insert_ne m.functions n nq f h,
   fun h => foldl_add_get_ne adds ⟨[]⟩ n h⟩

/-- C8 witness: overwrite of name `a`, unrelated name `b` untouched,
never-added name absent. -/
theorem C8_module_add_get_witness :
    (Module.add_function ⟨[("a", ⟨0, 0, []⟩)]⟩ "a" ⟨1, 1, []⟩).get_function "a" =
      some ⟨1, 1, []⟩ ∧
    (Module.add_function ⟨[("a", ⟨0, 0, []⟩)]⟩ "a" ⟨1, 1, []⟩).get_function "b" =
      Module.get_function ⟨[("a", ⟨0, 0, []⟩)]⟩ "b" ∧
    (mkModule [("x", ⟨0, 0, []⟩)]).get_function "a" = none := by
  obtain ⟨h1, h2, h3⟩ :=
    C8_module_add_get ⟨[("a", ⟨0, 0, []⟩)]⟩ "a" "b" ⟨1, 1, []⟩ [("x", ⟨0, 0, []⟩)]
  exact ⟨h1, h2 (by decide), h3 (by decide)⟩

theorem assignedPids_spec :
    ∀ (ops : List VMOp) (st : VMState),
      (assignedPids st ops).Pairwise (· < ·) ∧
      (∀ p ∈ assignedPids st ops, st.next_pid ≤ p) ∧
      (assignedPids st ops ≠ [] → (assignedPids st ops).head? = some st.next_pid)
  | [], st => by simp [assignedPids]
  | .spawnOp n a :: ops, st => by
    obtain ⟨ih1, ih2, _⟩ := assignedPids_spec ops (spawn_process st n a).2
    have hnext : (spawn_process st n a).2.next_pid = st.next_pid + 1 := rfl
    have hfst : (spawn_process st n a).1 = st.next_pid := rfl
    simp only [assignedPids, hfst]
    refine ⟨?_, ?_, ?_⟩
    · refine List.pairwise_cons.2 ⟨?_, ih1⟩
      intro p hp
      have := ih2 p hp
      rw [hnext] at this
      omega
    · intro p hp
      rcases List.mem_cons.1 hp with h | h
      · omega
      · have := ih2 p h
        rw [hnext] at this
        omega
    · intro _
      rfl
  | .exitOp p :: ops, st => by
    obtain ⟨ih1, ih2, ih3⟩ := assignedPids_spec ops (process_exit st p)
    exact ⟨ih1, ih2, ih3⟩

/-- C4: `spawn_process` hands out the current counter value as the pid and
then increments the counter; over any sequence of supervisor events
starting from a fresh VM, the assigned pids are pairwise strictly
increasing (hence never reused) and the first assigned pid is 0. -/
theorem C4_pid_allocation (m : Module) (st : VMState) (n : String)
    (a : List Value) (ops : List VMOp) :
    (spawn_process st n a).1 = st.next_pid ∧
    (spawn_process st n a).2.next_pid = st.next_pid + 1 ∧
    (assignedPids (vmNew m) ops).Pairwise (· < ·) ∧
    (assignedPids (vmNew m) ops).Nodup ∧
    (assignedPids (vmNew m) ops ≠ [] →
      (assignedPids (vmNew m) ops).head? = some 0) := by
  obtain ⟨h1, _, h3⟩ := assignedPids_spec ops (vmNew m)
  exact ⟨rfl, rfl, h1, h1.imp Nat.ne_of_lt, h3⟩

/-- C4 witness: two spawns with an exit between them get pids 0 and 1. -/
theorem C4_pid_allocation_witness :
    assignedPids (vmNew ⟨[]⟩)
        [.spawnOp "init" [], .exitOp 0, .spawnOp "w" []] = [0, 1] ∧
    ([0, 1] : List Nat).Nodup ∧
    (assignedPids (vmNew ⟨[]⟩)
        [.spawnOp "init" [], .exitOp 0, .spawnOp "w" []]).head? = some 0 := by
  obtain ⟨_, _, _, h4, h5⟩ :=
    C4_pid_allocation ⟨[]⟩ (vmNew ⟨[]⟩) "init" []
      [.spawnOp "init" [], .exitOp 0, .spawnOp "w" []]
  refine ⟨by decide, by decide, h5 (by decide)⟩

theorem channels_zero_preserved :
    ∀ (ops : List VMOp) (st : VMState),
      1 ≤ st.next_pid → st.channels 0 = some 0 → VMOp.exitOp 0 ∉ ops →
      (applyOps st ops).channels 0 = some 0
  | [], _, _, h0, _ => h0
  | .spawnOp n a :: ops, st, h1, h0, hmem => by
    refine channels_zero_preserved ops _ (by simp [applyOp, spawn_process]) ?_
      (fun h => hmem (List.mem_cons_of_mem _ h))
    have : st.next_pid ≠ 0 := by omega
    simp [applyOp, spawn_process, Ne.symm this, h0]
  | .exitOp p :: ops, st, h1, h0, hmem => by
    have hp : p ≠ 0 := by
      intro e
      exact hmem (by simp [e])
    refine channels_zero_preserved ops _ (by simpa [applyOp, process_exit] using h1) ?_
      (fun h => hmem (List.mem_cons_of_mem _ h))
    simp [applyOp, process_exit, Ne.symm hp, h0]

/-- C10: the spawn performed by `run` on a fresh VM assigns pid 0 to the
`init` process, and as long as init has not exited, the registry lookup a
`Send` with pid operand 0 performs resolves to the channel registered at
init's spawn. -/
theorem C10_init_pid_zero (m : Module) (ops : List VMOp)
    (h : VMOp.exitOp 0 ∉ ops) :
    (runStart m).1 = 0 ∧
    sendTarget (applyOps (runStart m).2 ops) 0 = some 0 :=
  ⟨rfl, channels_zero_preserved ops (runStart m).2 (Nat.le_refl 1) rfl h⟩

/-- C10 witness: a later spawn and that process's exit leave init's
registry entry in place. -/
theorem C10_init_pid_zero_witness :
    (runStart ⟨[]⟩).1 = 0 ∧
    sendTarget (applyOps (runStart ⟨[]⟩).2 [.spawnOp "w" [], .exitOp 1]) 0 =
      some 0 :=
  C10_init_pid_zero ⟨[]⟩ [.spawnOp "w" [], .exitOp 1] (by decide)

/-- C5: a `Return` with an empty call stack terminates the process; the
detached stack must be empty there (a non-empty stack is fatal), and on
exit the pid's registry entry is removed and then the quiescence
notification is raised, in that order. -/
theorem C5_top_level_return (m : Module) (o : Oracle) (s : ProcState)
    (hfetch : s.function.instructions.get? s.next_instr = some .Return)
    (hframes : s.frame_stack = []) :
    (s.stack = [] → step m o s = .exited [.unregister s.pid, .notifyExited]) ∧
    (s.stack ≠ [] → step m o s = .fatal) := by
  constructor
  · intro h
    simp only [step]
    rw [hfetch, hframes]
    simp [h]
  · intro h
    simp only [step]
    rw [hfetch, hframes]
    simp [h]

/-- C5 witness: a process at a top-level `Return` with an empty stack
exits with the unregister effect before the notify effect. -/
theorem C5_top_level_return_witness :
    step ⟨[]⟩ ⟨⟨"", .Int 0⟩, 0, true⟩ ⟨5, ⟨0, 0, [.Return]⟩, 0, [], []⟩ =
      .exited [.unregister 5, .notifyExited] :=
  (C5_top_level_return ⟨[]⟩ ⟨⟨"", .Int 0⟩, 0, true⟩
      ⟨5, ⟨0, 0, [.Return]⟩, 0, [], []⟩ rfl rfl).1 rfl

theorem sameVariant_of_eq (v c : Value) : v = c → v.sameVariant c = true := by
  intro h
  subst h
  cases v <;> rfl

/-- C3: `JumpIfEqual(d, c)` on a non-empty stack pops the top value `v`
and sets the program counter to `d` exactly when `v = c` (structural
per-variant equality); when `v` and `c` have different variants it never
jumps; in every case exactly the top value is consumed. -/
theorem C3_jump_if_equal (m : Module) (o : Oracle) (s : ProcState)
    (d : Nat) (c v : Value) (rest : List Value)
    (hfetch : s.function.instructions.get? s.next_instr =
      some (.JumpIfEqual d c))
    (hstack : s.stack = v :: rest) :
    step m o s =
      .ok { s with stack := rest,
                   next_instr := if v = c then d else s.next_instr + 1 } [] ∧
    (v.sameVariant c = false →
      step m o s =
        .ok { s with stack := rest, next_instr := s.next_instr + 1 } []) := by
  have hmain : step m o s =
      .ok { s with stack := rest,
                   next_instr := if v = c then d else s.next_instr + 1 } [] := by
    simp only [step]
    rw [hfetch, hstack]
    by_cases h : v = c
    · subst h
      simp
    · have h2 : ¬c = v := fun e => h e.symm
      simp [h, h2]
  refine ⟨hmain, fun hsv => ?_⟩
  have hne : ¬v = c := fun e => by
    rw [sameVariant_of_eq v c e] at hsv
    cases hsv
  rw [hmain, if_neg hne]

/-- C3 witness: an int compared with a string literal does not jump and
consumes the top. -/
theorem C3_jump_if_equal_witness :
    step ⟨[]⟩ ⟨⟨"", .Int 0⟩, 0, true⟩
        ⟨0, ⟨0, 2, [.JumpIfEqual 5 (.Str "x")]⟩, 0, [.Int 1], []⟩ =
      .ok ⟨0, ⟨0, 2, [.JumpIfEqual 5 (.Str "x")]⟩, 1, [], []⟩ [] :=
  (C3_jump_if_equal ⟨[]⟩ ⟨⟨"", .Int 0⟩, 0, true⟩
      ⟨0, ⟨0, 2, [.JumpIfEqual 5 (.Str "x")]⟩, 0, [.Int 1], []⟩
      5 (.Str "x") (.Int 1) [] rfl rfl).2 rfl

theorem wrap64_emod (x : Int) :
    wrap64 x % 18446744073709551616 = x % 18446744073709551616 := by
  unfold wrap64
  omega

theorem wrap64_lb (x : Int) : -9223372036854775808 ≤ wrap64 x := by
  unfold wrap64
  omega

theorem wrap64_ub (x : Int) : wrap64 x < 9223372036854775808 := by
  unfold wrap64
  omega

/-- C6: `Add` and `Mul` on two integer operands `a` (popped first) and `b`
push `wrap64 (a + b)` resp. `wrap64 (a * b)`; `wrap64` is exactly
reduction modulo `2 ^ 64 = 18446744073709551616` into the signed 64-bit
range `[-2 ^ 63, 2 ^ 63)`; non-int operands are fatal. -/
theorem C6_add_mul_wrap (m : Module) (o : Oracle) (s : ProcState) :
    (∀ (a b : Int) (rest : List Value), s.stack = .Int a :: .Int b :: rest →
      (s.function.instructions.get? s.next_instr = some .Add →
        step m o s =
          .ok { s with next_instr := s.next_instr + 1,
                       stack := .Int (wrap64 (a + b)) :: rest } []) ∧
      (s.function.instructions.get? s.next_instr = some .Mul →
        step m o s =
          .ok { s with next_instr := s.next_instr + 1,
                       stack := .Int (wrap64 (a * b)) :: rest } [])) ∧
    (∀ (v w : Value) (rest : List Value), s.stack = v :: w :: rest →
      (v.isInt && w.isInt) = false →
      (s.function.instructions.get? s.next_instr = some .Add →
        step m o s = .fatal) ∧
      (s.function.instructions.get? s.next_instr = some .Mul →
        step m o s = .fatal)) ∧
    (∀ x : Int,
      wrap64 x % 18446744073709551616 = x % 18446744073709551616 ∧
      -9223372036854775808 ≤ wrap64 x ∧ wrap64 x < 9223372036854775808) := by
  refine ⟨?_, ?_, fun x => ⟨wrap64_emod x, wrap64_lb x, wrap64_ub x⟩⟩
  · intro a b rest hstack
    constructor <;>
      (intro hf
       simp only [step]
       rw [hf, hstack])
  · intro v w rest hstack hint
    constructor <;>
      (intro hf
       simp only [step]
       rw [hf, hstack]
       cases v <;> cases w <;> simp_all [Value.isInt])

/-- C6 witness: adding 3 and 4 pushes 7 with the wrapped value equal to
the exact sum. -/
theorem C6_add_mul_wrap_witness :
    step ⟨[]⟩ ⟨⟨"", .Int 0⟩, 0, true⟩
        ⟨0, ⟨0, 2, [.Add]⟩, 0, [.Int 3, .Int 4], []⟩ =
      .ok ⟨0, ⟨0, 2, [.Add]⟩, 1, [.Int 7], []⟩ [] := by
  have h :=
    ((C6_add_mul_wrap ⟨[]⟩ ⟨⟨"", .Int 0⟩, 0, true⟩
        ⟨0, ⟨0, 2, [.Add]⟩, 0, [.Int 3, .Int 4], []⟩).1 3 4 [] rfl).1 rfl
  have hw : wrap64 (3 + 4) = (7 : Int) := by decide
  rw [hw] at h
  exact h

/-- C7: on a stack of length greater than `i`, `Swap(i)` with `i ≠ 0`
exchanges the top (depth 0) with the element at depth `i`, preserving the
length and all other elements; `Swap(0)` leaves the state entirely
unchanged apart from the program counter. -/
theorem C7_swap (m : Module) (o : Oracle) (s : ProcState) (i : Nat)
    (hi : i < s.stack.length)
    (hfetch : s.function.instructions.get? s.next_instr = some (.Swap i)) :
    (i = 0 → step m o s = .ok { s with next_instr := s.next_instr + 1 } []) ∧
    (i ≠ 0 → ∃ st, swapExec i s.stack = some st ∧
      step m o s =
        .ok { s with next_instr := s.next_instr + 1, stack := st } [] ∧
      st.length = s.stack.length ∧
      st.get? 0 = s.stack.get? i ∧
      st.get? i = s.stack.get? 0 ∧
      ∀ j, j ≠ 0 → j ≠ i → st.get? j = s.stack.get? j) := by
  constructor
  · intro h0
    subst h0
    simp only [step]
    rw [hfetch]
    simp [hi, swapExec]
  · intro hne
    obtain ⟨k, rfl⟩ : ∃ k, i = k + 1 := ⟨i - 1, by omega⟩
    obtain ⟨t, rest, hs⟩ : ∃ t rest, s.stack = t :: rest := by
      cases hsc : s.stack with
      | nil => rw [hsc] at hi; simp at hi
      | cons t rest => exact ⟨t, rest, rfl⟩
    have hk : k < rest.length := by
      rw [hs] at hi
      simpa using hi
    have hw : rest.get? k = some (rest.get ⟨k, hk⟩) := List.get?_eq_get hk
    have hswap : swapExec (k + 1) s.stack =
        some (rest.get ⟨k, hk⟩ :: rest.set k t) := by
      simp [swapExec, hs, hw]
    refine ⟨rest.get ⟨k, hk⟩ :: rest.set k t, hswap, ?_, ?_, ?_, ?_, ?_⟩
    · simp only [step]
      rw [hfetch]
      simp [hi, hswap]
    · simp [hs]
    · simp [hs, hw]
    · simp [hs, List.getElem?_set_eq_of_lt t hk]
    · intro j hj0 hjk
      obtain ⟨j2, rfl⟩ : ∃ j2, j = j2 + 1 := ⟨j - 1, by omega⟩
      have hj2k : j2 ≠ k := fun e => hjk (by rw [e])
      simp [hs, List.getElem?_set_ne (Ne.symm hj2k)]

/-- C7 witness: `Swap(2)` on the three-element stack with top `1` and
bottom `3` exchanges top and bottom. -/
theorem C7_swap_witness :
    swapExec 2 [Value.Int 1, Value.Int 2, Value.Int 3] =
      some [Value.Int 3, Value.Int 2, Value.Int 1] ∧
    step ⟨[]⟩ ⟨⟨"", .Int 0⟩, 0, true⟩
        ⟨0, ⟨0, 3, [.Swap 2]⟩, 0, [.Int 1, .Int 2, .Int 3], []⟩ =
      .ok ⟨0, ⟨0, 3, [.Swap 2]⟩, 1, [.Int 3, .Int 2, .Int 1], []⟩ [] := by
  obtain ⟨st, h1, h2, -, -, -, -⟩ :=
    (C7_swap ⟨[]⟩ ⟨⟨"", .Int 0⟩, 0, true⟩
        ⟨0, ⟨0, 3, [.Swap 2]⟩, 0, [.Int 1, .Int 2, .Int 3], []⟩ 2
        (by decide) rfl).2 (by decide)
  have hval : swapExec 2 [Value.Int 1, Value.Int 2, Value.Int 3] =
      some [Value.Int 3, Value.Int 2, Value.Int 1] := rfl
  have hst : st = [Value.Int 3, Value.Int 2, Value.Int 1] :=
    Option.some.inj (h1.symm.trans hval)
  subst hst
  exact ⟨hval, h2⟩

/-- C9: under the precondition `i < len(S)`, the vector index
`len(S) - i - 1` read by `Dup(i)` and read/written by `Swap(i)` with
`i ≠ 0` is in bounds, so the embedded stack-indexing operations succeed
and the `Dup`/`Swap` handlers cannot end fatally. -/
theorem C9_index_safety (i : Nat) (l : List Value) (h : i < l.length) :
    l.length - i - 1 < l.length ∧
    (dupExec i l).isSome ∧
    (i ≠ 0 → (swapExec i l).isSome) ∧
    (∀ (m : Module) (o : Oracle) (s : ProcState), s.stack = l →
      s.function.instructions.get? s.next_instr = some (.Dup i) →
      step m o s ≠ .fatal) ∧
    (∀ (m : Module) (o : Oracle) (s : ProcState), s.stack = l →
      s.function.instructions.get? s.next_instr = some (.Swap i) →
      step m o s ≠ .fatal) := by
  have hdup : (dupExec i l).isSome := by
    simp [dupExec, List.getElem?_eq_getElem h]
  have hswapAll : (swapExec i l).isSome := by
    rcases Nat.eq_zero_or_pos i with h0 | hpos
    · simp [swapExec, h0]
    · obtain ⟨k, rfl⟩ : ∃ k, i = k + 1 := ⟨i - 1, by omega⟩
      obtain ⟨t, rest, rfl⟩ : ∃ t rest, l = t :: rest := by
        cases l with
        | nil => simp at h
        | cons a as => exact ⟨a, as, rfl⟩
      have hk : k < rest.length := by simpa using h
      simp [swapExec, List.getElem?_eq_getElem hk]
  refine ⟨by omega, hdup, fun _ => hswapAll, ?_, ?_⟩
  · intro m o s hsl hf
    simp only [step]
    rw [hf, hsl]
    rcases hd : dupExec i l with - | st
    · rw [hd] at hdup
      simp at hdup
    · simp [h, hd]
  · intro m o s hsl hf
    simp only [step]
    rw [hf, hsl]
    rcases hd : swapExec i l with - | st
    · rw [hd] at hswapAll
      simp at hswapAll
    · simp [h, hd]

/-- C9 witness: `Dup(1)` and `Swap(1)` on a two-element stack are safe. -/
theorem C9_index_safety_witness :
    ([Value.Int 5, Value.Int 6] : List Value).length - 1 - 1 <
      ([Value.Int 5, Value.Int 6] : List Value).length ∧
    (dupExec 1 [Value.Int 5, Value.Int 6]).isSome ∧
    (swapExec 1 [Value.Int 5, Value.Int 6]).isSome ∧
    step ⟨[]⟩ ⟨⟨"", .Int 0⟩, 0, true⟩
        ⟨0, ⟨0, 3, [.Dup 1]⟩, 0, [.Int 5, .Int 6], []⟩ ≠ .fatal ∧
    step ⟨[]⟩ ⟨⟨"", .Int 0⟩, 0, true⟩
        ⟨0, ⟨0, 3, [.Swap 1]⟩, 0, [.Int 5, .Int 6], []⟩ ≠ .fatal := by
  obtain ⟨h1, h2, h3, h4, h5⟩ :=
    C9_index_safety 1 [Value.Int 5, Value.Int 6] (by decide)
  exact ⟨h1, h2, h3 (by decide),
    h4 ⟨[]⟩ ⟨⟨"", .Int 0⟩, 0, true⟩
      ⟨0, ⟨0, 3, [.Dup 1]⟩, 0, [.Int 5, .Int 6], []⟩ rfl rfl,
    h5 ⟨[]⟩ ⟨⟨"", .Int 0⟩, 0, true⟩
      ⟨0, ⟨0, 3, [.Swap 1]⟩, 0, [.Int 5, .Int 6], []⟩ rfl rfl⟩

/-- C2: the stack-bound invariant `len(stack) ≤ stack_size` is NOT
preserved by the code: the `Receive` arm pushes the message name and
payload without any capacity check, so a process whose function has
`stack_size = 1` satisfies the bound before a `Receive` and violates it at
the very next instruction boundary, with no fatal error raised. -/
theorem C2_receive_overflows_stack_bound :
    (⟨0, ⟨0, 1, [.Receive, .Return]⟩, 0, [], []⟩ : ProcState).stack.length ≤
      (⟨0, ⟨0, 1, [.Receive, .Return]⟩, 0, [], []⟩ : ProcState).function.stack_size ∧
    step ⟨[]⟩ ⟨⟨"m", .Int 7⟩, 0, true⟩
        ⟨0, ⟨0, 1, [.Receive, .Return]⟩, 0, [], []⟩ =
      .ok ⟨0, ⟨0, 1, [.Receive, .Return]⟩, 1, [.Int 7, .Str "m"], []⟩ [] ∧
    (⟨0, ⟨0, 1, [.Receive, .Return]⟩, 1, [.Int 7, .Str "m"], []⟩ : ProcState).function.stack_size <
      (⟨0, ⟨0, 1, [.Receive, .Return]⟩, 1, [.Int 7, .Str "m"], []⟩ : ProcState).stack.length :=
  ⟨by decide, by decide, by decide⟩

theorem step_call (m : Module) (o : Oracle) (s : ProcState) (name : String)
    (g : Function)
    (hfetch : s.function.instructions.get? s.next_instr = some (.Call name))
    (hget : m.get_function name = some g)
    (hargs : g.arg_count ≤ s.stack.length) :
    step m o s = .ok { s with
      function := g
      next_instr := 0
      stack := s.stack.take g.arg_count
      frame_stack :=
        ⟨s.function, s.next_instr + 1, s.stack.drop g.arg_count⟩ ::
          s.frame_stack } [] := by
  simp only [step]
  rw [hfetch]
  simp [hget, hargs]

theorem step_return (m : Module) (o : Oracle) (t : ProcState) (F : Frame)
    (rest : List Frame)
    (hfetch : t.function.instructions.get? t.next_instr = some .Return)
    (hframes : t.frame_stack = F :: rest) :
    step m o t = .ok { t with
      function := F.function
      next_instr := F.next_instr
      stack := t.stack ++ F.stack
      frame_stack := rest } [] := by
  simp only [step]
  rw [hfetch, hframes]

theorem stepTo_frames (m : Module) {a b : ProcState} (h : StepTo m a b) :
    b.frame_stack = a.frame_stack ∨
    (∃ F, b.frame_stack = F :: a.frame_stack) ∨
    (∃ F, a.frame_stack = F :: b.frame_stack) := by
  obtain ⟨o, effs, h⟩ := h
  unfold step at h
  repeat' split at h
  all_goals cases h
  all_goals first
    | (left; rfl)
    | (right; left; exact ⟨_, rfl⟩)
    | (right; right; exact ⟨_, by assumption⟩)

theorem stepTo_suffix (m : Module) (n : Nat) {a b : ProcState}
    (h : StepTo m a b) (ha : n ≤ a.frame_stack.length)
    (hb : n ≤ b.frame_stack.length) :
    suffixFrames n a.frame_stack = suffixFrames n b.frame_stack := by
  rcases stepTo_frames m h with heq | ⟨F, heq⟩ | ⟨F, heq⟩
  · rw [heq]
  · rw [heq]
    simp only [suffixFrames, List.length_cons]
    have h1 : a.frame_stack.length + 1 - n = (a.frame_stack.length - n) + 1 := by
      omega
    rw [h1, List.drop_succ_cons]
  · rw [heq]
    simp only [suffixFrames, List.length_cons]
    have h1 : b.frame_stack.length + 1 - n = (b.frame_stack.length - n) + 1 := by
      omega
    rw [h1, List.drop_succ_cons]

theorem calleePhase_suffix (m : Module) (n : Nat) {a b : ProcState}
    (h : CalleePhase m n a b) :
    suffixFrames n a.frame_stack = suffixFrames n b.frame_stack := by
  have h2 : Relation.ReflTransGen
      (fun x y => StepTo m x y ∧
        n ≤ x.frame_stack.length ∧ n ≤ y.frame_stack.length) a b := h
  clear h
  induction h2 with
  | refl => rfl
  | tail hab hbc ih => exact ih.trans (stepTo_suffix m n hbc.1 hbc.2.1 hbc.2.2)

/-- C1: a `Call(name)` splits the caller stack into the top
`g.arg_count` argument values (the callee's initial stack) and the rest
`C = s.stack.drop g.arg_count`, pushing the caller frame with the saved
program counter `s.next_instr + 1` (the instruction after the `Call`).
When the callee execution (which never pops below the pushed frame)
reaches its terminal `Return` — frame depth back at one above the
caller's — with stack `R = t.stack`, the caller resumes at the saved
program counter with stack `R ++ C` in the head-is-top representation,
i.e. `C` concatenated with `R` bottom-to-top. -/
theorem C1_call_return_symmetry (m : Module) (o o2 : Oracle)
    (s s1 t : ProcState) (name : String) (g : Function) (effs : List Eff)
    (hfetch : s.function.instructions.get? s.next_instr = some (.Call name))
    (hget : m.get_function name = some g)
    (hargs : g.arg_count ≤ s.stack.length)
    (hstep : step m o s = .ok s1 effs)
    (hphase : CalleePhase m (s.frame_stack.length + 1) s1 t)
    (hret : t.function.instructions.get? t.next_instr = some .Return)
    (hdepth : t.frame_stack.length = s.frame_stack.length + 1) :
    step m o2 t = .ok { t with
      function := s.function
      next_instr := s.next_instr + 1
      stack := t.stack ++ s.stack.drop g.arg_count
      frame_stack := s.frame_stack } [] := by
  have hcall := step_call m o s name g hfetch hget hargs
  rw [hstep] at hcall
  injection hcall with hs1 heffs
  have hs1f : s1.frame_stack =
      ⟨s.function, s.next_instr + 1, s.stack.drop g.arg_count⟩ ::
        s.frame_stack := by
    rw [hs1]
  have hs1len : s1.frame_stack.length = s.frame_stack.length + 1 := by
    rw [hs1f]
    simp
  have hsuffix := calleePhase_suffix m (s.frame_stack.length + 1) hphase
  have h1 : suffixFrames (s.frame_stack.length + 1) s1.frame_stack =
      s1.frame_stack := by
    unfold suffixFrames
    rw [hs1len]
    simp
  have h2 : suffixFrames (s.frame_stack.length + 1) t.frame_stack =
      t.frame_stack := by
    unfold suffixFrames
    rw [hdepth]
    simp
  rw [h1, h2] at hsuffix
  have htf : t.frame_stack =
      ⟨s.function, s.next_instr + 1, s.stack.drop g.arg_count⟩ ::
        s.frame_stack := by
    rw [← hsuffix, hs1f]
  exact step_return m o2 t
    ⟨s.function, s.next_instr + 1, s.stack.drop g.arg_count⟩
    s.frame_stack hret htf

/-- C1 witness: `init`-style caller with stack top `Int 1` over `Int 2`
calls `f` (one argument); `f` returns immediately with stack `[Int 1]`,
and the caller resumes after the `Call` with stack `[Int 1, Int 2]`
(top-first), i.e. `C ++ R` bottom-to-top. -/
theorem C1_call_return_symmetry_witness :
    step ⟨[("f", ⟨1, 1, [.Return]⟩)]⟩ ⟨⟨"", .Int 0⟩, 0, true⟩
        ⟨0, ⟨1, 1, [.Return]⟩, 0, [.Int 1],
          [⟨⟨0, 2, [.Call "f", .Return]⟩, 1, [.Int 2]⟩]⟩ =
      .ok ⟨0, ⟨0, 2, [.Call "f", .Return]⟩, 1, [.Int 1, .Int 2], []⟩ [] :=
  C1_call_return_symmetry ⟨[("f", ⟨1, 1, [.Return]⟩)]⟩
    ⟨⟨"", .Int 0⟩, 0, true⟩ ⟨⟨"", .Int 0⟩, 0, true⟩
    ⟨0, ⟨0, 2, [.Call "f", .Return]⟩, 0, [.Int 1, .Int 2], []⟩
    ⟨0, ⟨1, 1, [.Return]⟩, 0, [.Int 1],
      [⟨⟨0, 2, [.Call "f", .Return]⟩, 1, [.Int 2]⟩]⟩
    ⟨0, ⟨1, 1, [.Return]⟩, 0, [.Int 1],
      [⟨⟨0, 2, [.Call "f", .Return]⟩, 1, [.Int 2]⟩]⟩
    "f" ⟨1, 1, [.Return]⟩ []
    rfl rfl (by decide) rfl Relation.ReflTransGen.refl rfl rfl

end Rerl
